import Mathlib

/-!
# Verification of the elm-solve-deps dependency resolver

Shallow embedding of the elm-solve-deps library (crate `elm-solve-deps-lib`)
and proofs about its behavior.  Pure functions of the Rust source are
translated to Lean functions; I/O effects (HTTP fetches, filesystem reads
and writes) are passed as explicit oracle arguments; Rust `Result` becomes
`Except`; BTreeMap / BTreeSet become association lists / sorted lists.

Source files embedded:
- `src/elm-solve-deps-lib/src/constraint.rs` (`Constraint::from_str`)
- `src/elm-solve-deps-lib/src/project_config.rs` (`Pkg`, config types)
- `src/elm-solve-deps-lib/src/pkg_version.rs` (`PkgVersion`, `Cache::update`,
  `PkgVersion::fetch_config`)
- `src/elm-solve-deps-lib/src/dependency_provider.rs` (`ProjectAdapter`)
- `src/elm-solve-deps-lib/src/solver.rs` (`solve_helper`, `solve_deps_with`,
  `Online::list_available_versions`)

The version/range algebra lives in the external `pubgrub` crate (component A
of the specification); those definitions are modelled from the spec, as
indicated by their doc comments.
-/

/-- Modelled from the spec: semantic version of the `pubgrub` crate
(`pubgrub::version::SemanticVersion`), a triple `(major, minor, patch)` of
non-negative integers. -/
structure SemVer where
  major : Nat
  minor : Nat
  patch : Nat
deriving DecidableEq, Repr

/-- Modelled from the spec: versions are totally ordered lexicographically. -/
def SemVer.lt (a b : SemVer) : Prop :=
  a.major < b.major ∨
    (a.major = b.major ∧
      (a.minor < b.minor ∨ (a.minor = b.minor ∧ a.patch < b.patch)))

instance : LT SemVer := ⟨SemVer.lt⟩

/-- Modelled from the spec: `a ≤ b` iff `a < b` or `a = b`. -/
def SemVer.le (a b : SemVer) : Prop := a < b ∨ a = b

instance : LE SemVer := ⟨SemVer.le⟩

instance (a b : SemVer) : Decidable (a < b) :=
  decidable_of_iff
    (a.major < b.major ∨
      (a.major = b.major ∧
        (a.minor < b.minor ∨ (a.minor = b.minor ∧ a.patch < b.patch))))
    Iff.rfl

instance (a b : SemVer) : Decidable (a ≤ b) :=
  decidable_of_iff (a < b ∨ a = b) Iff.rfl

/-- The `0.0.0` version (`SemanticVersion::zero`). -/
def SemVer.zero : SemVer := ⟨0, 0, 0⟩

/-- Modelled from the spec: `bump_patch` yields `(major, minor, patch+1)`. -/
def SemVer.bump_patch (v : SemVer) : SemVer := ⟨v.major, v.minor, v.patch + 1⟩

/-- `M.m.p` textual rendering of a version (`Display for SemanticVersion`). -/
def SemVer.toStr (v : SemVer) : String :=
  toString v.major ++ "." ++ toString v.minor ++ "." ++ toString v.patch

/-- Modelled from the spec: a range of versions is a union of half-open
intervals `[lo, hi)`, `hi = none` meaning `+∞`
(`pubgrub::range::Range<SemanticVersion>`), kept sorted and disjoint. -/
def VersionRange : Type := List (SemVer × Option SemVer)

instance : DecidableEq VersionRange := by
  unfold VersionRange
  infer_instance

instance : Repr VersionRange := by
  unfold VersionRange
  infer_instance

namespace VersionRange

/-- Modelled from the spec: the empty range (`Range::none`). -/
def noRange : VersionRange := []

/-- Modelled from the spec: the range of every version (`Range::any`),
`[0.0.0, +∞)`. -/
def anyRange : VersionRange := [(SemVer.zero, Option.none)]

/-- Modelled from the spec: `higher_than v` is `[v, +∞)`. -/
def higher_than (v : SemVer) : VersionRange := [(v, Option.none)]

/-- Modelled from the spec: `strictly_lower_than v` is `[0.0.0, v)`,
empty when `v` is `0.0.0`. -/
def strictly_lower_than (v : SemVer) : VersionRange :=
  if v = SemVer.zero then [] else [(SemVer.zero, some v)]

/-- Modelled from the spec: `exact v` is `[v, v.bump_patch())`. -/
def exact (v : SemVer) : VersionRange := [(v, some v.bump_patch)]

/-- Modelled from the spec: `contains r v` tests membership of a version in
one of the intervals of the range. -/
def containsV (r : VersionRange) (v : SemVer) : Bool :=
  r.any fun seg =>
    decide (seg.1 ≤ v) &&
      (match seg.2 with
       | some hi => decide (v < hi)
       | Option.none => true)

/-- The larger of two versions. -/
def vmax (a b : SemVer) : SemVer := if a < b then b else a

/-- Modelled from the spec: intersection of two ranges, a pointwise linear
merge of the two sorted interval lists. -/
def intersection : VersionRange → VersionRange → VersionRange
  | [], _ => []
  | _ :: _, [] => []
  | (l1, h1) :: r1, (l2, h2) :: r2 =>
    let lo := vmax l1 l2
    match h1, h2 with
    | Option.none, Option.none => [(lo, Option.none)]
    | some u1, Option.none =>
        if lo < u1 then
          (lo, some u1) :: intersection r1 ((l2, Option.none) :: r2)
        else intersection r1 ((l2, Option.none) :: r2)
    | Option.none, some u2 =>
        if lo < u2 then
          (lo, some u2) :: intersection ((l1, Option.none) :: r1) r2
        else intersection ((l1, Option.none) :: r1) r2
    | some u1, some u2 =>
        if u1 < u2 then
          (if lo < u1 then
            (lo, some u1) :: intersection r1 ((l2, some u2) :: r2)
          else intersection r1 ((l2, some u2) :: r2))
        else
          (if lo < u2 then
            (lo, some u2) :: intersection ((l1, some u1) :: r1) r2
          else intersection ((l1, some u1) :: r1) r2)
termination_by r1 r2 => r1.length + r2.length
decreasing_by all_goals (simp [List.length]; try omega)

end VersionRange

/-- A package identifier, author plus package name
(`project_config.rs`, `struct Pkg`). -/
structure Pkg where
  author : String
  pkg : String
deriving DecidableEq, Repr

/-- `Pkg::new` (`project_config.rs`). -/
def Pkg.new (author pkg : String) : Pkg := ⟨author, pkg⟩

/-- `Pkg::to_url`: `"{remote}/packages/{author}/{pkg}"` (`project_config.rs`). -/
def Pkg.to_url (p : Pkg) (remote_base_url : String) : String :=
  remote_base_url ++ "/packages/" ++ p.author ++ "/" ++ p.pkg

/-- A package identifier together with a version
(`pkg_version.rs`, `struct PkgVersion`). -/
structure PkgVersion where
  author_pkg : Pkg
  version : SemVer
deriving DecidableEq, Repr

/-- `PkgVersion::to_url`: `"{pkg_url}/{version}/elm.json"` (`pkg_version.rs`). -/
def PkgVersion.to_url (pv : PkgVersion) (remote_base_url : String) : String :=
  pv.author_pkg.to_url remote_base_url ++ "/" ++ pv.version.toStr ++ "/elm.json"

/-- Auxiliary loop for `splitWhitespace`: walks the characters, accumulating
the current (reversed) token. -/
def splitWhitespaceAux : List Char → List Char → List String
  | [], acc => if acc.isEmpty then [] else [String.mk acc.reverse]
  | c :: rest, acc =>
    if c.isWhitespace then
      if acc.isEmpty then splitWhitespaceAux rest []
      else String.mk acc.reverse :: splitWhitespaceAux rest []
    else splitWhitespaceAux rest (c :: acc)

/-- Rust's `str::split_whitespace`: the maximal whitespace-free substrings,
in order, with no empty tokens. -/
def splitWhitespace (s : String) : List String :=
  splitWhitespaceAux s.toList []

/-- Error type of `Constraint::from_str` (`constraint.rs`,
`enum ConstraintParseError`).  `InvalidVersion` carries the underlying
version-parse error in Rust; its payload is irrelevant to the claims and is
dropped here. -/
inductive ConstraintParseError where
  | InvalidFormat (full_constraint : String)
  | InvalidSeparator (full_constraint : String)
  | InvalidVersion
deriving DecidableEq, Repr

/-- `Constraint::from_str` (`constraint.rs`).  The leaf semantic-version
parser (`SemanticVersion::from_str` of the external `pubgrub` crate) is
passed as the argument `parseVersion`; `Option.none` models its failure. -/
def Constraint.fromStr (parseVersion : String → Option SemVer) (s : String) :
    Except ConstraintParseError VersionRange :=
  match splitWhitespace s with
  | [low, sep1, _, sep2, high] =>
    match parseVersion low with
    | Option.none => .error .InvalidVersion
    | some v1 =>
      match parseVersion high with
      | Option.none => .error .InvalidVersion
      | some v2 =>
        if sep1 ≠ "<=" ∧ sep1 ≠ "<" then
          .error (.InvalidSeparator s)
        else if sep2 ≠ "<=" ∧ sep2 ≠ "<" then
          .error (.InvalidSeparator s)
        else
          let range1 :=
            if sep1 = "<=" then VersionRange.higher_than v1
            else VersionRange.higher_than v1.bump_patch
          let range2 :=
            if sep2 = "<" then VersionRange.strictly_lower_than v2
            else VersionRange.strictly_lower_than v2.bump_patch
          .ok (range1.intersection range2)
  | _ => .error (.InvalidFormat s)

/-- `BTreeMap::get`: lookup in an association list. -/
def alistLookup {α β : Type} [DecidableEq α] (m : List (α × β)) (k : α) :
    Option β :=
  match m with
  | [] => Option.none
  | (k', v) :: rest => if k' = k then some v else alistLookup rest k

/-- `BTreeMap::contains_key`. -/
def alistContainsKey {α β : Type} [DecidableEq α] (m : List (α × β)) (k : α) :
    Bool :=
  (alistLookup m k).isSome

/-- `BTreeMap::insert`: replace the binding of `k` if present, else add it. -/
def alistInsert {α β : Type} [DecidableEq α] (m : List (α × β)) (k : α)
    (v : β) : List (α × β) :=
  match m with
  | [] => [(k, v)]
  | (k', v') :: rest =>
    if k' = k then (k, v) :: rest else (k', v') :: alistInsert rest k v

/-- `BTreeSet<SemanticVersion>::insert`: sorted-set insertion. -/
def setInsert (v : SemVer) : List SemVer → List SemVer
  | [] => [v]
  | x :: rest =>
    if v < x then v :: x :: rest
    else if x < v then x :: setInsert v rest
    else x :: rest

/-- Union of two `BTreeSet<SemanticVersion>` iterated in ascending order:
linear merge of two sorted duplicate-free lists, dropping duplicates. -/
def setUnion : List SemVer → List SemVer → List SemVer
  | [], ys => ys
  | x :: xs, [] => x :: xs
  | x :: xs, y :: ys =>
    if x < y then x :: setUnion xs (y :: ys)
    else if y < x then y :: setUnion (x :: xs) ys
    else x :: setUnion xs ys
termination_by xs ys => xs.length + ys.length
decreasing_by all_goals (simp [List.length]; try omega)

/-- The versions cache (`pkg_version.rs`, `struct Cache`):
`BTreeMap<Pkg, BTreeSet<SemVer>>`, embedded as an association list of
ascending duplicate-free version lists. -/
structure Cache where
  cache : List (Pkg × List SemVer)
deriving DecidableEq, Repr

/-- `Cache::new`. -/
def Cache.newCache : Cache := ⟨[]⟩

/-- The total number of cached versions:
`self.cache.values().map(|v| v.len()).sum()` in `Cache::update`. -/
def Cache.totalVersions (c : Cache) : Nat :=
  (c.cache.map fun e => e.2.length).sum

/-- The membership test of `Cache::update`:
`self.cache.get(&pv.author_pkg).and_then(|s| s.get(&pv.version)).is_some()`. -/
def Cache.containsVersion (c : Cache) (pv : PkgVersion) : Bool :=
  match alistLookup c.cache pv.author_pkg with
  | some vs => decide (pv.version ∈ vs)
  | Option.none => false

/-- The insertion step of `Cache::update`'s registration loop:
`self.cache.entry(author_pkg).or_default().insert(version)`. -/
def Cache.insertVersion (c : Cache) (pv : PkgVersion) : Cache :=
  ⟨alistInsert c.cache pv.author_pkg
    (setInsert pv.version ((alistLookup c.cache pv.author_pkg).getD []))⟩

/-- `Cache::update` (`pkg_version.rs`).  The HTTP layer and JSON decoding
are modelled by two oracles: `fetchAllPackages` is the parsed outcome of
`GET <remote>/all-packages` (`Cache::from_remote_all_pkg`), and
`fetchSince n` the parsed outcome of `GET <remote>/all-packages/since/n`,
a list of `PkgVersion` ordered newest first.  An `Except.error` of an
oracle covers a failed request as well as an unparseable body. -/
def Cache.update (c : Cache) (fetchAllPackages : Except String Cache)
    (fetchSince : Nat → Except String (List PkgVersion)) :
    Except String Cache :=
  if c.cache.isEmpty then fetchAllPackages
  else
    let versions_count := c.totalVersions
    match fetchSince (Nat.max versions_count 1 - 1) with
    | .error e => .error e
    | .ok new_versions =>
      match new_versions.getLast? with
      | Option.none =>
        -- Empty response: a package was deleted, reload from scratch.
        fetchAllPackages
      | some last_pkg =>
        let newers := new_versions.dropLast
        if c.containsVersion last_pkg then
          .ok (newers.foldl Cache.insertVersion c)
        else
          -- The cache window is not contiguous: reload from scratch.
          fetchAllPackages

/-- Exposed modules of a package manifest (`project_config.rs`,
`enum ExposedModules`). -/
inductive ExposedModules where
  | NoCategory (modules : List String)
  | WithCategories (categories : List (String × List String))
deriving DecidableEq, Repr

/-- Package manifest (`project_config.rs`, `struct PackageConfig`);
a `Constraint` is a newtype of a range, embedded directly as the range. -/
structure PackageConfig where
  name : Pkg
  summary : String
  license : String
  version : SemVer
  elm_version : VersionRange
  exposed_modules : ExposedModules
  dependencies : List (Pkg × VersionRange)
  test_dependencies : List (Pkg × VersionRange)
deriving DecidableEq, Repr

/-- Dependencies of an application (`project_config.rs`,
`struct AppDependencies`): also the output type of the solver. -/
structure AppDependencies where
  direct : List (Pkg × SemVer)
  indirect : List (Pkg × SemVer)
deriving DecidableEq, Repr

/-- Application manifest (`project_config.rs`, `struct ApplicationConfig`). -/
structure ApplicationConfig where
  source_directories : List String
  elm_version : SemVer
  dependencies : AppDependencies
  test_dependencies : AppDependencies
deriving DecidableEq, Repr

/-- A project manifest (`project_config.rs`, `enum ProjectConfig`). -/
inductive ProjectConfig where
  | Application (config : ApplicationConfig)
  | Package (config : PackageConfig)
deriving DecidableEq, Repr

/-- Result of a provider's `get_dependencies`
(`pubgrub::solver::Dependencies`). -/
inductive Dependencies where
  | Known (deps : List (Pkg × VersionRange))
  | Unknown

/-- Error type for package-version operations (`pkg_version.rs`,
`enum PkgVersionError`); underlying causes are embedded as strings. -/
inductive PkgVersionError where
  | FileIoError (e : String)
  | JsonError (e : String)
  | FetchError (url : String) (source : String)
  | ParseError (e : String)
deriving DecidableEq, Repr

/-- `PkgVersion::fetch_config` (`pkg_version.rs`).  Effects are oracles:
`http_fetch` is the caller-supplied HTTP client (as in the source),
`create_dir_all` is the outcome of `std::fs::create_dir_all` on the
pubgrub cache directory of this package version, `fs_write body` the
outcome of `std::fs::write` of the fetched body to the cache file, and
`parse_config` the outcome of `serde_json::from_str` on a body. -/
def PkgVersion.fetch_config (pv : PkgVersion) (remote_base_url : String)
    (http_fetch : String → Except String String)
    (create_dir_all : Except String Unit)
    (fs_write : String → Except String Unit)
    (parse_config : String → Except String PackageConfig) :
    Except PkgVersionError PackageConfig :=
  let remote_url := pv.to_url remote_base_url
  match http_fetch remote_url with
  | .error e => .error (.FetchError remote_url e)
  | .ok config_str =>
    match create_dir_all with
    | .error e => .error (.FileIoError e)
    | .ok _ =>
      match fs_write config_str with
      | .error e => .error (.FileIoError e)
      | .ok _ =>
        match parse_config config_str with
        | .error e => .error (.JsonError e)
        | .ok config => .ok config

/-- The root adapter (`dependency_provider.rs`, `struct ProjectAdapter`).
The wrapped dependency provider (`deps_provider: &DP`) is embedded by its
two trait methods as function fields. -/
structure ProjectAdapter where
  pkg_id : Pkg
  version : SemVer
  direct_deps : List (Pkg × VersionRange)
  dp_choose : List (Pkg × VersionRange) → Except String (Pkg × Option SemVer)
  dp_get_dependencies : Pkg → SemVer → Except String Dependencies

/-- `ProjectAdapter::new` (`dependency_provider.rs`).  `Option.none` models
the `panic!` on the reserved compiler package id `elm/""`. -/
def ProjectAdapter.new (pkg_id : Pkg) (version : SemVer)
    (direct_deps : List (Pkg × VersionRange))
    (dp_choose : List (Pkg × VersionRange) →
      Except String (Pkg × Option SemVer))
    (dp_get_dependencies : Pkg → SemVer → Except String Dependencies) :
    Option ProjectAdapter :=
  if pkg_id = Pkg.new "elm" "" then Option.none
  else some ⟨pkg_id, version, direct_deps, dp_choose, dp_get_dependencies⟩

/-- `ProjectAdapter::choose_package_version` (`dependency_provider.rs`).
The candidate iterator is a list; `Option.none` models the `unwrap` panic
on an empty iterator.  The delegated call receives
`once((p, r)).chain(potential_packages)`, i.e. the original list. -/
def ProjectAdapter.choose_package_version (a : ProjectAdapter)
    (potential_packages : List (Pkg × VersionRange)) :
    Option (Except String (Pkg × Option SemVer)) :=
  match potential_packages with
  | [] => Option.none
  | (p, r) :: rest =>
    some
      (if p = a.pkg_id then .ok (p, some a.version)
       else a.dp_choose ((p, r) :: rest))

/-- `ProjectAdapter::get_dependencies` (`dependency_provider.rs`). -/
def ProjectAdapter.get_dependencies (a : ProjectAdapter) (package : Pkg)
    (version : SemVer) : Except String Dependencies :=
  if package = a.pkg_id then .ok (.Known a.direct_deps)
  else a.dp_get_dependencies package version

/-- `solve_helper` (`solver.rs`).  The PubGrub resolver
(`pubgrub::solver::resolve`, component G of the specification, external
crate) is an oracle `resolve` receiving the constructed adapter and the
root; on success it yields the assignment as a key-unique entry list.
`Option.none` models the construction panic of `ProjectAdapter::new`.
The generic solver's two oracle functions stand in for the `Solver`
value built by `solve_deps_with`. -/
def solve_helper
    (resolve : ProjectAdapter → Pkg → SemVer →
      Except String (List (Pkg × SemVer)))
    (root_pkg : Pkg) (root_version : SemVer)
    (direct_deps : List (Pkg × VersionRange))
    (solver_choose : List (Pkg × VersionRange) →
      Except String (Pkg × Option SemVer))
    (solver_get_dependencies : Pkg → SemVer → Except String Dependencies) :
    Option (Except String AppDependencies) :=
  match ProjectAdapter.new root_pkg root_version direct_deps solver_choose
      solver_get_dependencies with
  | Option.none => Option.none
  | some adapter =>
    some
      (match resolve adapter root_pkg root_version with
       | .error e => .error e
       | .ok solution =>
         -- solution.remove(root_pkg)
         let solution := solution.filter fun e => e.1 ≠ root_pkg
         -- partition by membership in the direct-dependency map
         let parts := solution.partition fun e => alistContainsKey direct_deps e.1
         .ok ⟨parts.1, parts.2⟩)

/-- The application-branch accumulation of `direct_deps` entries in
`solve_deps_with`: `(p, v)` pairs collected as `(p, exact v)`. -/
def collectExactDeps (deps : List (Pkg × SemVer)) :
    List (Pkg × VersionRange) :=
  deps.foldl (fun m pv => alistInsert m pv.1 (VersionRange.exact pv.2)) []

/-- The package-branch accumulation of `deps` entries in
`solve_deps_with`: declared ranges collected as such. -/
def collectRangeDeps (deps : List (Pkg × VersionRange)) :
    List (Pkg × VersionRange) :=
  deps.foldl (fun m pr => alistInsert m pr.1 pr.2) []

/-- The additional-constraints loop of `solve_deps_with`:
`entry(p).or_insert_with(Range::any)` then intersect with the constraint. -/
def applyExtras (m : List (Pkg × VersionRange))
    (additional_constraints : List (Pkg × VersionRange)) :
    List (Pkg × VersionRange) :=
  additional_constraints.foldl
    (fun m pr =>
      match alistLookup m pr.1 with
      | some cur => alistInsert m pr.1 (cur.intersection pr.2)
      | Option.none => alistInsert m pr.1 (VersionRange.anyRange.intersection pr.2))
    m

/-- `solve_deps_with` (`solver.rs`).  The two caller-supplied functions
`fetch_elm_json` and `list_available_versions` only flow into the generic
`Solver`, which the embedding represents by the two provider oracles
`solver_choose` / `solver_get_dependencies`; the PubGrub resolver itself
is the oracle `resolve` (see `solve_helper`). -/
def solve_deps_with
    (resolve : ProjectAdapter → Pkg → SemVer →
      Except String (List (Pkg × SemVer)))
    (solver_choose : List (Pkg × VersionRange) →
      Except String (Pkg × Option SemVer))
    (solver_get_dependencies : Pkg → SemVer → Except String Dependencies)
    (project_elm_json : ProjectConfig) (use_test : Bool)
    (additional_constraints : List (Pkg × VersionRange)) :
    Option (Except String AppDependencies) :=
  match project_elm_json with
  | .Application app_config =>
    let normal_deps := app_config.dependencies.direct
    let test_deps := app_config.test_dependencies.direct
    let direct_deps :=
      collectExactDeps (if use_test then normal_deps ++ test_deps else normal_deps)
    let direct_deps := applyExtras direct_deps additional_constraints
    solve_helper resolve (Pkg.new "root" "") SemVer.zero direct_deps
      solver_choose solver_get_dependencies
  | .Package pkg_config =>
    let normal_deps := pkg_config.dependencies
    let test_deps := pkg_config.test_dependencies
    let deps :=
      collectRangeDeps (if use_test then normal_deps ++ test_deps else normal_deps)
    let deps := applyExtras deps additional_constraints
    solve_helper resolve pkg_config.name pkg_config.version deps
      solver_choose solver_get_dependencies

/-- Version-picking strategy of the online solver (`solver.rs`,
`enum VersionStrategy`). -/
inductive VersionStrategy where
  | Newest
  | Oldest
deriving DecidableEq, Repr

/-- `Online::list_available_versions` (`solver.rs`): the union of the
offline solver's local versions cache entry and the online cache entry for
`pkg` (absent entries are the empty set), ascending for `Oldest` and
reversed for `Newest`. -/
def Online.list_available_versions (local_cache online_cache : Cache)
    (strategy : VersionStrategy) (pkg : Pkg) : List SemVer :=
  let local_versions := (alistLookup local_cache.cache pkg).getD []
  let online_versions := (alistLookup online_cache.cache pkg).getD []
  let all_versions := setUnion local_versions online_versions
  match strategy with
  | .Oldest => all_versions
  | .Newest => all_versions.reverse

/-- A small concrete semantic-version parser used to instantiate witness
statements (the real one lives in the external `pubgrub` crate and is a
parameter of the embedding). -/
def demoParseVersion : String → Option SemVer := fun t =>
  if t = "1.0.0" then some ⟨1, 0, 0⟩
  else if t = "2.0.0" then some ⟨2, 0, 0⟩
  else Option.none

instance : DecidableEq (Except ConstraintParseError VersionRange) :=
  fun a b =>
    match a, b with
    | .ok x, .ok y => decidable_of_iff (x = y) (by simp)
    | .error x, .error y => decidable_of_iff (x = y) (by simp)
    | .ok _, .error _ => isFalse (by simp)
    | .error _, .ok _ => isFalse (by simp)

/-- A concrete root adapter used to instantiate witness statements. -/
def demoAdapter : ProjectAdapter :=
  ⟨Pkg.new "root" "", SemVer.zero,
    [(Pkg.new "lib" "core", VersionRange.exact ⟨1, 0, 0⟩)],
    fun _ => .ok (Pkg.new "lib" "core", some ⟨1, 0, 0⟩),
    fun _ _ => .ok (.Known [])⟩

/-- The root package id chosen by `solve_deps_with`: the synthetic
`root/""` for an application, the declared name for a package. -/
def rootPkgOf : ProjectConfig → Pkg
  | .Application _ => Pkg.new "root" ""
  | .Package pkg_config => pkg_config.name

/-- The root version chosen by `solve_deps_with`: `0.0.0` for an
application, the declared version for a package. -/
def rootVersionOf : ProjectConfig → SemVer
  | .Application _ => SemVer.zero
  | .Package pkg_config => pkg_config.version

/-- The direct-dependency range map built by `solve_deps_with`: declared
direct dependencies (pinned as `exact` for an application), test
dependencies when `use_test`, and the additional constraints intersected
in. -/
def directDepsOf (project : ProjectConfig) (use_test : Bool)
    (additional_constraints : List (Pkg × VersionRange)) :
    List (Pkg × VersionRange) :=
  match project with
  | .Application app_config =>
    applyExtras
      (collectExactDeps
        (if use_test then
          app_config.dependencies.direct ++
            app_config.test_dependencies.direct
         else app_config.dependencies.direct))
      additional_constraints
  | .Package pkg_config =>
    applyExtras
      (collectRangeDeps
        (if use_test then
          pkg_config.dependencies ++ pkg_config.test_dependencies
         else pkg_config.dependencies))
      additional_constraints

/-- A concrete application project used to instantiate witness
statements. -/
def demoProject : ProjectConfig :=
  .Application
    ⟨[], ⟨0, 19, 1⟩,
      ⟨[(Pkg.new "lib" "core", ⟨1, 0, 0⟩)], []⟩,
      ⟨[], []⟩⟩

/-- A concrete resolver assignment used to instantiate witness
statements. -/
def demoSolution : List (Pkg × SemVer) :=
  [(Pkg.new "root" "", SemVer.zero), (Pkg.new "lib" "core", ⟨1, 0, 0⟩),
    (Pkg.new "lib" "bytes", ⟨1, 0, 8⟩)]

/-- A concrete resolver oracle returning `demoSolution`. -/
def demoResolve : ProjectAdapter → Pkg → SemVer →
    Except String (List (Pkg × SemVer)) :=
  fun _ _ _ => .ok demoSolution

/-- A concrete `choose_package_version` provider oracle. -/
def demoChoose :
    List (Pkg × VersionRange) → Except String (Pkg × Option SemVer) :=
  fun _ => .error "unused"

/-- A concrete `get_dependencies` provider oracle. -/
def demoGetDeps : Pkg → SemVer → Except String Dependencies :=
  fun _ _ => .error "unused"

/-- A concrete package version used to instantiate C4 statements. -/
def demoPkgVersion : PkgVersion := ⟨Pkg.new "lib" "core", ⟨1, 0, 0⟩⟩

/-- A concrete parsed package manifest used to instantiate C4 statements. -/
def demoConfig : PackageConfig :=
  ⟨Pkg.new "lib" "core", "", "", ⟨1, 0, 0⟩, VersionRange.anyRange,
    .NoCategory [], [], []⟩

/-- The update behavior exactly as the claim words it: "if the cache is
empty" (no cached versions) replace with `/all-packages`, otherwise request
`/all-packages/since/<N-1>` where `N` is the total count of cached
versions, then proceed as described.  Compare with `Cache.update`, the
embedding of the source. -/
def Cache.update_asClaimed (c : Cache) (fetchAllPackages : Except String Cache)
    (fetchSince : Nat → Except String (List PkgVersion)) :
    Except String Cache :=
  if c.totalVersions = 0 then fetchAllPackages
  else
    match fetchSince (c.totalVersions - 1) with
    | .error e => .error e
    | .ok new_versions =>
      match new_versions.getLast? with
      | Option.none => fetchAllPackages
      | some last_pkg =>
        let newers := new_versions.dropLast
        if c.containsVersion last_pkg then
          .ok (newers.foldl Cache.insertVersion c)
        else fetchAllPackages

/-- A degenerate cache state: one package recorded with no versions, so the
cache map is non-empty while the total version count is zero. -/
def demoDegenerateCache : Cache := ⟨[(Pkg.new "a" "b", [])]⟩

/-- A concrete `/all-packages` oracle answer. -/
def demoFetchAll : Except String Cache :=
  .ok ⟨[(Pkg.new "a" "b", [⟨1, 0, 0⟩])]⟩

/-- A concrete `/all-packages/since/_` oracle that fails. -/
def demoFetchSince : Nat → Except String (List PkgVersion) :=
  fun _ => .error "since request failed"

/-- A concrete one-version cache used to instantiate the C3 witness. -/
def demoCache1 : Cache := ⟨[(Pkg.new "lib" "core", [⟨1, 0, 0⟩])]⟩

/-- A concrete `since` oracle whose answer overlaps the cache by one
entry. -/
def demoFetchSince1 : Nat → Except String (List PkgVersion) :=
  fun _ => .ok [⟨Pkg.new "lib" "json", ⟨2, 0, 0⟩⟩,
    ⟨Pkg.new "lib" "core", ⟨1, 0, 0⟩⟩]

/-- A concrete offline versions cache used to instantiate the C5
witness. -/
def demoLocalCache : Cache := ⟨[(Pkg.new "lib" "core", [⟨1, 0, 0⟩])]⟩

/-- A concrete remote versions cache used to instantiate the C5 witness. -/
def demoOnlineCache : Cache := ⟨[(Pkg.new "lib" "core", [⟨2, 0, 0⟩])]⟩

theorem SemVer.lt_iff (a b : SemVer) :
    a < b ↔
      (a.major < b.major ∨
        (a.major = b.major ∧
          (a.minor < b.minor ∨ (a.minor = b.minor ∧ a.patch < b.patch)))) :=
  Iff.rfl

theorem SemVer.le_iff (a b : SemVer) : a ≤ b ↔ a < b ∨ a = b := Iff.rfl

theorem SemVer.ext_iff' (a b : SemVer) :
    a = b ↔ a.major = b.major ∧ a.minor = b.minor ∧ a.patch = b.patch := by
  cases a; cases b; simp

theorem SemVer.lt_irrefl (a : SemVer) : ¬ a < a := by
  simp [SemVer.lt_iff]

theorem SemVer.lt_trans {a b c : SemVer} (h1 : a < b) (h2 : b < c) : a < c := by
  rw [SemVer.lt_iff] at *
  omega

theorem SemVer.lt_asymm {a b : SemVer} (h : a < b) : ¬ b < a := by
  rw [SemVer.lt_iff] at *
  omega

theorem SemVer.eq_of_not_lt_not_lt {a b : SemVer}
    (h1 : ¬ a < b) (h2 : ¬ b < a) : a = b := by
  rw [SemVer.lt_iff] at *
  rw [SemVer.ext_iff']
  omega

theorem SemVer.le_of_lt {a b : SemVer} (h : a < b) : a ≤ b := Or.inl h

theorem SemVer.lt_of_le_of_lt {a b c : SemVer} (h1 : a ≤ b) (h2 : b < c) :
    a < c := by
  rcases h1 with h1 | rfl
  · exact SemVer.lt_trans h1 h2
  · exact h2

theorem SemVer.not_lt_zero (a : SemVer) : ¬ a < SemVer.zero := by
  simp [SemVer.lt_iff, SemVer.zero]

theorem SemVer.lt_bump_patch (v : SemVer) : v < v.bump_patch := by
  simp [SemVer.lt_iff, SemVer.bump_patch]

theorem VersionRange.vmax_zero_right (x : SemVer) : vmax x SemVer.zero = x := by
  unfold vmax
  rw [if_neg (SemVer.not_lt_zero x)]

theorem VersionRange.containsV_higher_than (x v : SemVer) :
    (higher_than x).containsV v = true ↔ x ≤ v := by
  simp [containsV, higher_than]

theorem VersionRange.containsV_strictly_lower_than (y v : SemVer) :
    (strictly_lower_than y).containsV v = true ↔ v < y := by
  unfold strictly_lower_than
  by_cases hy : y = SemVer.zero
  · subst hy
    simp [containsV, SemVer.not_lt_zero]
  · rw [if_neg hy]
    simp only [containsV, List.any_cons, List.any_nil, Bool.or_false,
      Bool.and_eq_true, decide_eq_true_eq]
    constructor
    · rintro ⟨-, h⟩; exact h
    · intro h
      refine ⟨?_, h⟩
      rcases Nat.eq_zero_or_pos v.major with h1 | h1
      · rcases Nat.eq_zero_or_pos v.minor with h2 | h2
        · rcases Nat.eq_zero_or_pos v.patch with h3 | h3
          · right
            rw [SemVer.ext_iff']
            simp [SemVer.zero, h1, h2, h3]
          · left; rw [SemVer.lt_iff]; simp [SemVer.zero]; omega
        · left; rw [SemVer.lt_iff]; simp [SemVer.zero]; omega
      · left; rw [SemVer.lt_iff]; simp [SemVer.zero]; omega

theorem VersionRange.inter_nil_right (r : VersionRange) : intersection r [] = [] := by
  cases r with
  | nil => simp [intersection]
  | cons a r => cases a; simp [intersection]

theorem VersionRange.inter_higher_strictly_lower (x y : SemVer) :
    intersection (higher_than x) (strictly_lower_than y) =
      if x < y then [(x, some y)] else [] := by
  unfold strictly_lower_than
  by_cases hy : y = SemVer.zero
  · subst hy
    rw [if_pos rfl, if_neg (SemVer.not_lt_zero x), higher_than,
      inter_nil_right]
  · rw [if_neg hy]
    show intersection [(x, Option.none)] [(SemVer.zero, some y)] = _
    simp only [intersection, vmax_zero_right, inter_nil_right]

theorem VersionRange.containsV_inter_higher_strictly_lower (x y v : SemVer) :
    (intersection (higher_than x) (strictly_lower_than y)).containsV v
      = true ↔ x ≤ v ∧ v < y := by
  rw [inter_higher_strictly_lower]
  by_cases hxy : x < y
  · rw [if_pos hxy]
    simp [containsV]
  · rw [if_neg hxy]
    simp only [containsV, List.any_nil, Bool.false_eq_true, false_iff]
    rintro ⟨h1, h2⟩
    exact hxy (SemVer.lt_of_le_of_lt h1 h2)

theorem Constraint.fromStr_five (parseVersion : String → Option SemVer)
    (s t1 o1 tm o2 t5 : String)
    (hsplit : splitWhitespace s = [t1, o1, tm, o2, t5]) :
    Constraint.fromStr parseVersion s =
      (match parseVersion t1 with
       | Option.none => .error .InvalidVersion
       | some v1 =>
         match parseVersion t5 with
         | Option.none => .error .InvalidVersion
         | some v2 =>
           if o1 ≠ "<=" ∧ o1 ≠ "<" then .error (.InvalidSeparator s)
           else if o2 ≠ "<=" ∧ o2 ≠ "<" then .error (.InvalidSeparator s)
           else
             .ok (VersionRange.intersection
               (if o1 = "<=" then VersionRange.higher_than v1
                else VersionRange.higher_than v1.bump_patch)
               (if o2 = "<" then VersionRange.strictly_lower_than v2
                else VersionRange.strictly_lower_than v2.bump_patch))) := by
  unfold Constraint.fromStr
  rw [hsplit]

/-- C2: a five-token constraint string whose versions parse and whose
separators are `<` or `<=` parses successfully to the intersection of the
lower-bound range (`higher_than v1` for `<=`, `higher_than v1.bump_patch`
for `<`) and the upper-bound range (`strictly_lower_than v2` for `<`,
`strictly_lower_than v2.bump_patch` for `<=`); when the lower bound admits
`v2`, the parsed range contains `v2` exactly when the second separator is
`<=`. -/
theorem spec_c2_constraint_parse_success
    (parseVersion : String → Option SemVer) (s t1 o1 tm o2 t5 : String)
    (v1 v2 : SemVer)
    (hsplit : splitWhitespace s = [t1, o1, tm, o2, t5])
    (h1 : parseVersion t1 = some v1)
    (h5 : parseVersion t5 = some v2)
    (ho1 : o1 = "<" ∨ o1 = "<=")
    (ho2 : o2 = "<" ∨ o2 = "<=") :
    Constraint.fromStr parseVersion s =
      .ok (VersionRange.intersection
        (if o1 = "<=" then VersionRange.higher_than v1
         else VersionRange.higher_than v1.bump_patch)
        (if o2 = "<" then VersionRange.strictly_lower_than v2
         else VersionRange.strictly_lower_than v2.bump_patch)) ∧
    ((if o1 = "<=" then VersionRange.higher_than v1
      else VersionRange.higher_than v1.bump_patch).containsV v2 = true →
      ((VersionRange.intersection
          (if o1 = "<=" then VersionRange.higher_than v1
           else VersionRange.higher_than v1.bump_patch)
          (if o2 = "<" then VersionRange.strictly_lower_than v2
           else VersionRange.strictly_lower_than v2.bump_patch)).containsV v2
        = true ↔ o2 = "<=")) := by
  rw [Constraint.fromStr_five parseVersion s t1 o1 tm o2 t5 hsplit, h1, h5]
  simp only []
  rcases ho1 with rfl | rfl <;> rcases ho2 with rfl | rfl
  · rw [if_neg (by decide), if_neg (by decide)]
    refine ⟨rfl, ?_⟩
    rw [if_neg (by decide : ¬ ("<" : String) = "<="),
      if_pos (show ("<" : String) = "<" from rfl)]
    intro hlow
    rw [VersionRange.containsV_inter_higher_strictly_lower]
    constructor
    · rintro ⟨-, hvv⟩
      exact absurd hvv (SemVer.lt_irrefl v2)
    · intro h
      exact absurd h (by decide)
  · rw [if_neg (by decide), if_neg (by decide)]
    refine ⟨rfl, ?_⟩
    rw [if_neg (by decide : ¬ ("<" : String) = "<="),
      if_neg (by decide : ¬ ("<=" : String) = "<")]
    intro hlow
    rw [VersionRange.containsV_higher_than] at hlow
    rw [VersionRange.containsV_inter_higher_strictly_lower]
    constructor
    · intro _
      rfl
    · intro _
      exact ⟨hlow, SemVer.lt_bump_patch v2⟩
  · rw [if_neg (by decide), if_neg (by decide)]
    refine ⟨rfl, ?_⟩
    rw [if_pos (show ("<=" : String) = "<=" from rfl),
      if_pos (show ("<" : String) = "<" from rfl)]
    intro hlow
    rw [VersionRange.containsV_inter_higher_strictly_lower]
    constructor
    · rintro ⟨-, hvv⟩
      exact absurd hvv (SemVer.lt_irrefl v2)
    · intro h
      exact absurd h (by decide)
  · rw [if_neg (by decide), if_neg (by decide)]
    refine ⟨rfl, ?_⟩
    rw [if_pos (show ("<=" : String) = "<=" from rfl),
      if_neg (by decide : ¬ ("<=" : String) = "<")]
    intro hlow
    rw [VersionRange.containsV_higher_than] at hlow
    rw [VersionRange.containsV_inter_higher_strictly_lower]
    constructor
    · intro _
      rfl
    · intro _
      exact ⟨hlow, SemVer.lt_bump_patch v2⟩

/-- Witness for C2 at the concrete constraint `"1.0.0 <= v < 2.0.0"`. -/
theorem spec_c2_constraint_parse_success_witness :
    Constraint.fromStr demoParseVersion "1.0.0 <= v < 2.0.0" =
      .ok (VersionRange.intersection
        (VersionRange.higher_than ⟨1, 0, 0⟩)
        (VersionRange.strictly_lower_than ⟨2, 0, 0⟩)) ∧
    ((VersionRange.intersection
        (VersionRange.higher_than ⟨1, 0, 0⟩)
        (VersionRange.strictly_lower_than ⟨2, 0, 0⟩)).containsV ⟨2, 0, 0⟩
      = true ↔ ("<" : String) = "<=") := by
  have h := spec_c2_constraint_parse_success demoParseVersion
    "1.0.0 <= v < 2.0.0" "1.0.0" "<=" "v" "<" "2.0.0" ⟨1, 0, 0⟩ ⟨2, 0, 0⟩
    (by decide) (by decide) (by decide) (Or.inr rfl) (Or.inl rfl)
  rw [if_pos (show ("<=" : String) = "<=" from rfl),
    if_pos (show ("<" : String) = "<" from rfl)] at h
  exact ⟨h.1, h.2 (by decide)⟩

/-- C8: `Constraint::from_str` fails with `InvalidFormat` when the
whitespace split is not exactly five tokens, with `InvalidVersion` when the
first or fifth token does not parse as a version, and with
`InvalidSeparator` when (the versions parse and) the second or fourth token
is neither `<` nor `<=`. -/
theorem spec_c8_constraint_parse_errors
    (parseVersion : String → Option SemVer) (s : String) :
    ((splitWhitespace s).length ≠ 5 →
      Constraint.fromStr parseVersion s = .error (.InvalidFormat s)) ∧
    (∀ t1 o1 tm o2 t5, splitWhitespace s = [t1, o1, tm, o2, t5] →
      ((parseVersion t1 = Option.none ∨ parseVersion t5 = Option.none) →
        Constraint.fromStr parseVersion s = .error .InvalidVersion) ∧
      (∀ v1 v2, parseVersion t1 = some v1 → parseVersion t5 = some v2 →
        (¬(o1 = "<=" ∨ o1 = "<") ∨ ¬(o2 = "<=" ∨ o2 = "<")) →
        Constraint.fromStr parseVersion s =
          .error (.InvalidSeparator s))) := by
  constructor
  · intro hlen
    unfold Constraint.fromStr
    split
    · rename_i heq
      exact absurd (by rw [heq]; rfl) hlen
    · rfl
  · intro t1 o1 tm o2 t5 hsplit
    constructor
    · intro hv
      rw [Constraint.fromStr_five parseVersion s t1 o1 tm o2 t5 hsplit]
      rcases hv with hv | hv
      · rw [hv]
      · cases h1 : parseVersion t1 with
        | none => rfl
        | some v1 => rw [hv]
    · intro v1 v2 h1 h5 hsep
      rw [Constraint.fromStr_five parseVersion s t1 o1 tm o2 t5 hsplit, h1,
        h5]
      simp only []
      rcases hsep with hsep | hsep
      · rw [if_pos (show o1 ≠ "<=" ∧ o1 ≠ "<" from
          ⟨fun h => hsep (Or.inl h), fun h => hsep (Or.inr h)⟩)]
      · by_cases ho1 : o1 ≠ "<=" ∧ o1 ≠ "<"
        · rw [if_pos ho1]
        · rw [if_neg ho1, if_pos (show o2 ≠ "<=" ∧ o2 ≠ "<" from
            ⟨fun h => hsep (Or.inl h), fun h => hsep (Or.inr h)⟩)]

/-- Witness for C8: each of the three error kinds at a concrete input. -/
theorem spec_c8_constraint_parse_errors_witness :
    Constraint.fromStr demoParseVersion "1.0.0" =
      .error (.InvalidFormat "1.0.0") ∧
    Constraint.fromStr demoParseVersion "bad <= v < 2.0.0" =
      .error .InvalidVersion ∧
    Constraint.fromStr demoParseVersion "1.0.0 ! v < 2.0.0" =
      .error (.InvalidSeparator "1.0.0 ! v < 2.0.0") := by
  refine ⟨(spec_c8_constraint_parse_errors demoParseVersion "1.0.0").1
      (by decide), ?_, ?_⟩
  · exact ((spec_c8_constraint_parse_errors demoParseVersion
      "bad <= v < 2.0.0").2 "bad" "<=" "v" "<" "2.0.0" (by decide)).1
      (Or.inl (by decide))
  · exact ((spec_c8_constraint_parse_errors demoParseVersion
      "1.0.0 ! v < 2.0.0").2 "1.0.0" "!" "v" "<" "2.0.0" (by decide)).2
      ⟨1, 0, 0⟩ ⟨2, 0, 0⟩ (by decide) (by decide) (Or.inl (by decide))

/-- C10 counterexample: two inputs that differ only in the (uninspected)
middle token but yield different results, because the `InvalidSeparator`
error embeds the full input string. -/
theorem spec_c10_counterexample :
    splitWhitespace "1.0.0 ! foo ! 2.0.0" =
      ["1.0.0", "!", "foo", "!", "2.0.0"] ∧
    splitWhitespace "1.0.0 ! bar ! 2.0.0" =
      ["1.0.0", "!", "bar", "!", "2.0.0"] ∧
    Constraint.fromStr demoParseVersion "1.0.0 ! foo ! 2.0.0" ≠
      Constraint.fromStr demoParseVersion "1.0.0 ! bar ! 2.0.0" := by
  refine ⟨rfl, rfl, fun hcontra => ?_⟩
  rw [show Constraint.fromStr demoParseVersion "1.0.0 ! foo ! 2.0.0" =
        .error (.InvalidSeparator "1.0.0 ! foo ! 2.0.0") from rfl,
    show Constraint.fromStr demoParseVersion "1.0.0 ! bar ! 2.0.0" =
        .error (.InvalidSeparator "1.0.0 ! bar ! 2.0.0") from rfl] at hcontra
  exact absurd hcontra (by decide)

/-- C10 (amended): for five-token inputs differing only in the middle
token, parsing yields the same outcome up to the full-input payload stored
in errors — the same range on success, an `InvalidVersion` error together,
and an `InvalidSeparator` error together (each carrying its own input
string); in particular a middle token other than the literal `v` is
accepted, e.g. `"1.0.0 <= anything < 2.0.0"`. -/
theorem spec_c10_middle_token_ignored
    (parseVersion : String → Option SemVer) (s s' t1 o1 m m' o2 t5 : String)
    (h : splitWhitespace s = [t1, o1, m, o2, t5])
    (h' : splitWhitespace s' = [t1, o1, m', o2, t5]) :
    (∀ r, Constraint.fromStr parseVersion s = .ok r ↔
      Constraint.fromStr parseVersion s' = .ok r) ∧
    (Constraint.fromStr parseVersion s = .error .InvalidVersion ↔
      Constraint.fromStr parseVersion s' = .error .InvalidVersion) ∧
    (Constraint.fromStr parseVersion s = .error (.InvalidSeparator s) ↔
      Constraint.fromStr parseVersion s' = .error (.InvalidSeparator s')) ∧
    Constraint.fromStr demoParseVersion "1.0.0 <= anything < 2.0.0" =
      .ok (VersionRange.intersection
        (VersionRange.higher_than ⟨1, 0, 0⟩)
        (VersionRange.strictly_lower_than ⟨2, 0, 0⟩)) := by
  rw [Constraint.fromStr_five parseVersion s t1 o1 m o2 t5 h,
    Constraint.fromStr_five parseVersion s' t1 o1 m' o2 t5 h']
  refine ⟨fun r => ?_, ?_, ?_, rfl⟩ <;>
    cases parseVersion t1 <;> cases parseVersion t5
  all_goals try simp
  all_goals split_ifs <;> simp

/-- Witness for the amended C10 at two concrete inputs. -/
theorem spec_c10_middle_token_ignored_witness :
    Constraint.fromStr demoParseVersion "1.0.0 <= v < 2.0.0" =
      .ok (VersionRange.intersection
        (VersionRange.higher_than ⟨1, 0, 0⟩)
        (VersionRange.strictly_lower_than ⟨2, 0, 0⟩)) ↔
    Constraint.fromStr demoParseVersion "1.0.0 <= anything < 2.0.0" =
      .ok (VersionRange.intersection
        (VersionRange.higher_than ⟨1, 0, 0⟩)
        (VersionRange.strictly_lower_than ⟨2, 0, 0⟩)) :=
  (spec_c10_middle_token_ignored demoParseVersion "1.0.0 <= v < 2.0.0"
    "1.0.0 <= anything < 2.0.0" "1.0.0" "<=" "v" "anything" "<" "2.0.0"
    (by decide) (by decide)).1 _

/-- C7: `ProjectAdapter::new` fails (panics) exactly when the root package
id is the reserved compiler pseudo-package `elm/""`; any other root id
yields an adapter storing the given root id, version, direct-dependency map
and wrapped provider. -/
theorem spec_c7_root_adapter_guard (pkg_id : Pkg) (version : SemVer)
    (direct_deps : List (Pkg × VersionRange))
    (dpc : List (Pkg × VersionRange) → Except String (Pkg × Option SemVer))
    (dpg : Pkg → SemVer → Except String Dependencies) :
    (ProjectAdapter.new pkg_id version direct_deps dpc dpg = Option.none ↔
      pkg_id = Pkg.new "elm" "") ∧
    ProjectAdapter.new pkg_id version direct_deps dpc dpg =
      (if pkg_id = Pkg.new "elm" "" then Option.none
       else some ⟨pkg_id, version, direct_deps, dpc, dpg⟩) := by
  refine ⟨?_, rfl⟩
  unfold ProjectAdapter.new
  by_cases h : pkg_id = Pkg.new "elm" ""
  · rw [if_pos h]
    simp [h]
  · rw [if_neg h]
    simp [h]

/-- C9: `ProjectAdapter::get_dependencies` answers the precomputed
direct-dependency map for the root package id, ignoring the queried
version entirely; all other packages are delegated to the wrapped
provider. -/
theorem spec_c9_root_deps_ignore_version (a : ProjectAdapter)
    (package : Pkg) (version version' : SemVer) :
    (package = a.pkg_id →
      a.get_dependencies package version = .ok (.Known a.direct_deps) ∧
      a.get_dependencies package version =
        a.get_dependencies package version') ∧
    (package ≠ a.pkg_id →
      a.get_dependencies package version =
        a.dp_get_dependencies package version) := by
  constructor
  · intro h
    unfold ProjectAdapter.get_dependencies
    rw [if_pos h, if_pos h]
    exact ⟨rfl, rfl⟩
  · intro h
    unfold ProjectAdapter.get_dependencies
    rw [if_neg h]

/-- Witness for C9: the root's dependencies are reported unchanged at a
version other than the pinned root version `0.0.0`. -/
theorem spec_c9_root_deps_ignore_version_witness :
    demoAdapter.get_dependencies (Pkg.new "root" "") ⟨9, 9, 9⟩ =
      .ok (.Known demoAdapter.direct_deps) ∧
    demoAdapter.get_dependencies (Pkg.new "root" "") ⟨9, 9, 9⟩ =
      demoAdapter.get_dependencies (Pkg.new "root" "") ⟨0, 0, 0⟩ ∧
    demoAdapter.get_dependencies (Pkg.new "lib" "core") ⟨1, 0, 0⟩ =
      demoAdapter.dp_get_dependencies (Pkg.new "lib" "core") ⟨1, 0, 0⟩ := by
  have h := (spec_c9_root_deps_ignore_version demoAdapter (Pkg.new "root" "")
    ⟨9, 9, 9⟩ ⟨0, 0, 0⟩).1 rfl
  have h2 := (spec_c9_root_deps_ignore_version demoAdapter
    (Pkg.new "lib" "core") ⟨1, 0, 0⟩ ⟨1, 0, 0⟩).2 (by decide)
  exact ⟨h.1, h.2, h2⟩

/-- C6: `ProjectAdapter::choose_package_version` on a non-empty candidate
list returns the pinned root version immediately when the first candidate
is the root package, independently of the wrapped provider; otherwise it
returns the wrapped provider's choice over the full candidate list, first
candidate reattached and order preserved. -/
theorem spec_c6_choose_package_version (a : ProjectAdapter) (p : Pkg)
    (r : VersionRange) (rest : List (Pkg × VersionRange)) :
    (p = a.pkg_id →
      a.choose_package_version ((p, r) :: rest) =
        some (.ok (p, some a.version))) ∧
    (p ≠ a.pkg_id →
      a.choose_package_version ((p, r) :: rest) =
        some (a.dp_choose ((p, r) :: rest))) := by
  constructor
  · intro h
    simp [ProjectAdapter.choose_package_version, h]
  · intro h
    simp [ProjectAdapter.choose_package_version, h]

/-- Witness for C6: both branches at concrete candidate lists. -/
theorem spec_c6_choose_package_version_witness :
    demoAdapter.choose_package_version
      [(Pkg.new "root" "", VersionRange.anyRange)] =
      some (.ok (Pkg.new "root" "", some SemVer.zero)) ∧
    demoAdapter.choose_package_version
      [(Pkg.new "lib" "json", VersionRange.anyRange)] =
      some (demoAdapter.dp_choose
        [(Pkg.new "lib" "json", VersionRange.anyRange)]) := by
  refine ⟨?_, ?_⟩
  · exact (spec_c6_choose_package_version demoAdapter (Pkg.new "root" "")
      VersionRange.anyRange []).1 rfl
  · exact (spec_c6_choose_package_version demoAdapter (Pkg.new "lib" "json")
      VersionRange.anyRange []).2 (by decide)

theorem keys_filter_subset {α β : Type} (m : List (α × β)) (g : α × β → Bool)
    (q : α) (h : q ∈ (m.filter g).map Prod.fst) : q ∈ m.map Prod.fst := by
  simp only [List.mem_map, List.mem_filter] at h ⊢
  obtain ⟨e, ⟨he, -⟩, hq⟩ := h
  exact ⟨e, he, hq⟩

theorem filter_keys_disjoint {β : Type} (l : List (Pkg × β)) (f : Pkg → Bool)
    (q : Pkg) :
    ¬(q ∈ (l.filter fun e => f e.1).map Prod.fst ∧
      q ∈ (l.filter fun e => !f e.1).map Prod.fst) := by
  rintro ⟨h1, h2⟩
  simp only [List.mem_map, List.mem_filter] at h1 h2
  obtain ⟨e1, ⟨-, hf1⟩, hq1⟩ := h1
  obtain ⟨e2, ⟨-, hf2⟩, hq2⟩ := h2
  rw [hq1] at hf1
  rw [hq2] at hf2
  rw [hf1] at hf2
  exact absurd hf2 (by decide)

theorem root_not_mem_removed {β : Type} (l : List (Pkg × β)) (root : Pkg) :
    root ∉ (l.filter fun e => e.1 ≠ root).map Prod.fst := by
  intro h
  simp only [List.mem_map, List.mem_filter, decide_eq_true_eq] at h
  obtain ⟨e, ⟨-, hne⟩, hq⟩ := h
  exact hne hq

/-- C1: a successful resolve through `solve_deps_with` yields the
resolver's assignment with the synthetic root removed, partitioned into
`direct` (keys of the precomputed direct-dependency map, declared direct
deps plus extras) and `indirect` (the rest); the two key sets are disjoint
and neither contains the root. -/
theorem spec_c1_solution_partition
    (resolve : ProjectAdapter → Pkg → SemVer →
      Except String (List (Pkg × SemVer)))
    (sc : List (Pkg × VersionRange) → Except String (Pkg × Option SemVer))
    (sgd : Pkg → SemVer → Except String Dependencies)
    (project : ProjectConfig) (use_test : Bool)
    (extras : List (Pkg × VersionRange))
    (sol : List (Pkg × SemVer)) (adapter : ProjectAdapter)
    (hadapter : ProjectAdapter.new (rootPkgOf project)
      (rootVersionOf project) (directDepsOf project use_test extras) sc sgd
      = some adapter)
    (hres : resolve adapter (rootPkgOf project) (rootVersionOf project) =
      .ok sol) :
    ∃ out : AppDependencies,
      solve_deps_with resolve sc sgd project use_test extras =
        some (.ok out) ∧
      out.direct = (sol.filter fun e => e.1 ≠ rootPkgOf project).filter
        (fun e => alistContainsKey (directDepsOf project use_test extras)
          e.1) ∧
      out.indirect = (sol.filter fun e => e.1 ≠ rootPkgOf project).filter
        (fun e => !alistContainsKey (directDepsOf project use_test extras)
          e.1) ∧
      (∀ q, ¬(q ∈ out.direct.map Prod.fst ∧
        q ∈ out.indirect.map Prod.fst)) ∧
      rootPkgOf project ∉ out.direct.map Prod.fst ∧
      rootPkgOf project ∉ out.indirect.map Prod.fst := by
  have hmain : solve_deps_with resolve sc sgd project use_test extras =
      some (.ok
        ⟨(sol.filter fun e => e.1 ≠ rootPkgOf project).filter
          (fun e => alistContainsKey (directDepsOf project use_test extras)
            e.1),
         (sol.filter fun e => e.1 ≠ rootPkgOf project).filter
          (fun e => !alistContainsKey (directDepsOf project use_test extras)
            e.1)⟩) := by
    cases project with
    | Application app_config =>
      simp only [rootPkgOf, rootVersionOf, directDepsOf] at hadapter hres ⊢
      unfold solve_deps_with solve_helper
      simp only []
      rw [hadapter]
      simp only []
      rw [hres]
      simp only []
      rw [List.partition_eq_filter_filter]
      simp [Function.comp]
    | Package pkg_config =>
      simp only [rootPkgOf, rootVersionOf, directDepsOf] at hadapter hres ⊢
      unfold solve_deps_with solve_helper
      simp only []
      rw [hadapter]
      simp only []
      rw [hres]
      simp only []
      rw [List.partition_eq_filter_filter]
      simp [Function.comp]
  refine ⟨_, hmain, rfl, rfl, ?_, ?_, ?_⟩
  · intro q
    exact filter_keys_disjoint _ _ q
  · intro h
    exact root_not_mem_removed sol (rootPkgOf project)
      (keys_filter_subset _ _ _ h)
  · intro h
    exact root_not_mem_removed sol (rootPkgOf project)
      (keys_filter_subset _ _ _ h)

/-- Witness for C1 at a concrete project and assignment: `lib/core` is a
declared direct dependency, `lib/bytes` is not, and the synthetic root is
removed. -/
theorem spec_c1_solution_partition_witness :
    ∃ out : AppDependencies,
      solve_deps_with demoResolve demoChoose demoGetDeps demoProject false []
        = some (.ok out) ∧
      out.direct = [(Pkg.new "lib" "core", (⟨1, 0, 0⟩ : SemVer))] ∧
      out.indirect = [(Pkg.new "lib" "bytes", (⟨1, 0, 8⟩ : SemVer))] := by
  obtain ⟨out, h1, h2, h3, -, -, -⟩ :=
    spec_c1_solution_partition demoResolve demoChoose demoGetDeps
      demoProject false [] demoSolution
      ⟨Pkg.new "root" "", SemVer.zero, directDepsOf demoProject false [],
        demoChoose, demoGetDeps⟩
      (by unfold ProjectAdapter.new; rw [if_neg (by decide)]; rfl)
      rfl
  refine ⟨out, h1, ?_, ?_⟩
  · rw [h2]
    rfl
  · rw [h3]
    rfl

/-- C4 counterexample: with a successful HTTP fetch and a parseable body,
a failing cache write makes `fetch_config` return a `FileIoError` instead
of the parsed config — the write failure is propagated, not ignored. -/
theorem spec_c4_counterexample :
    (fun _ => (Except.ok "body" : Except String String))
        (demoPkgVersion.to_url "https://r") = .ok "body" ∧
    (fun _ => (Except.ok demoConfig : Except String PackageConfig)) "body" =
      .ok demoConfig ∧
    demoPkgVersion.fetch_config "https://r"
        (fun _ => .ok "body") (.ok ()) (fun _ => .error "disk full")
        (fun _ => .ok demoConfig) =
      .error (.FileIoError "disk full") :=
  ⟨rfl, rfl, rfl⟩

/-- C4 (amended): `fetch_config` propagates filesystem failures: after a
successful HTTP fetch, a failure of the cache-directory creation or of the
cache-file write aborts with `FileIoError`; the parsed config is returned
only when both writes succeed. -/
theorem spec_c4_fetch_config_write_failure_aborts (pv : PkgVersion)
    (remote_base_url body : String)
    (http_fetch : String → Except String String)
    (create_dir_all : Except String Unit)
    (fs_write : String → Except String Unit)
    (parse_config : String → Except String PackageConfig)
    (hhttp : http_fetch (pv.to_url remote_base_url) = .ok body) :
    (∀ e, create_dir_all = .error e →
      pv.fetch_config remote_base_url http_fetch create_dir_all fs_write
        parse_config = .error (.FileIoError e)) ∧
    (∀ e, create_dir_all = .ok () → fs_write body = .error e →
      pv.fetch_config remote_base_url http_fetch create_dir_all fs_write
        parse_config = .error (.FileIoError e)) ∧
    (create_dir_all = .ok () → fs_write body = .ok () →
      pv.fetch_config remote_base_url http_fetch create_dir_all fs_write
        parse_config =
        (match parse_config body with
         | .ok config => .ok config
         | .error e => .error (.JsonError e))) := by
  unfold PkgVersion.fetch_config
  simp only []
  rw [hhttp]
  simp only []
  refine ⟨?_, ?_, ?_⟩
  · intro e hcd
    rw [hcd]
  · intro e hcd hw
    rw [hcd]
    simp only []
    rw [hw]
  · intro hcd hw
    rw [hcd]
    simp only []
    rw [hw]
    cases parse_config body <;> rfl

/-- Witness for the amended C4 at concrete oracles: the write-failure
branch and the all-success branch. -/
theorem spec_c4_fetch_config_write_failure_aborts_witness :
    demoPkgVersion.fetch_config "https://r" (fun _ => .ok "body") (.ok ())
        (fun _ => .error "disk full") (fun _ => .ok demoConfig) =
      .error (.FileIoError "disk full") ∧
    demoPkgVersion.fetch_config "https://r" (fun _ => .ok "body") (.ok ())
        (fun _ => .ok ()) (fun _ => .ok demoConfig) =
      .ok demoConfig := by
  have h1 := (spec_c4_fetch_config_write_failure_aborts demoPkgVersion
    "https://r" "body" (fun _ => .ok "body") (.ok ())
    (fun _ => .error "disk full") (fun _ => .ok demoConfig) rfl).2.1
    "disk full" rfl rfl
  have h2 := (spec_c4_fetch_config_write_failure_aborts demoPkgVersion
    "https://r" "body" (fun _ => .ok "body") (.ok ()) (fun _ => .ok ())
    (fun _ => .ok demoConfig) rfl).2.2 rfl rfl
  exact ⟨h1, h2⟩

/-- C3 counterexample: on the degenerate cache with zero cached versions
(but a non-empty cache map), `Cache::update` still issues the incremental
`since` request — at index `max(N,1)-1 = 0`, not `N-1 = -1` — so a failing
`since` oracle makes it fail where the claimed behavior (replace from
`/all-packages`, treating the cache as empty) would succeed. -/
theorem spec_c3_counterexample :
    demoDegenerateCache.totalVersions = 0 ∧
    demoDegenerateCache.update demoFetchAll demoFetchSince =
      .error "since request failed" ∧
    demoDegenerateCache.update_asClaimed demoFetchAll demoFetchSince =
      demoFetchAll ∧
    demoDegenerateCache.update demoFetchAll demoFetchSince ≠
      demoDegenerateCache.update_asClaimed demoFetchAll demoFetchSince := by
  refine ⟨rfl, rfl, rfl, ?_⟩
  intro h
  rw [show demoDegenerateCache.update demoFetchAll demoFetchSince =
      .error "since request failed" from rfl,
    show demoDegenerateCache.update_asClaimed demoFetchAll demoFetchSince =
      demoFetchAll from rfl] at h
  exact Except.noConfusion h

theorem nat_max_one_sub_one (a : Nat) : Nat.max a 1 - 1 = a - 1 := by
  show max a 1 - 1 = a - 1
  rw [max_def]
  split <;> omega

/-- C3 (amended): `Cache::update` replaces the cache from `/all-packages`
when the cache map is empty; otherwise it requests
`/all-packages/since/<max(N,1)-1>` (which is `N-1` whenever some version
is cached) and then: an empty returned list means a full refetch; when the
last (oldest) returned entry is already cached, every other returned entry
is inserted; when it is absent, a full refetch replaces the cache. -/
theorem spec_c3_cache_update (c : Cache) (fetchAll : Except String Cache)
    (fetchSince : Nat → Except String (List PkgVersion)) :
    (1 ≤ c.totalVersions → Nat.max c.totalVersions 1 - 1 =
      c.totalVersions - 1) ∧
    (c.cache.isEmpty = true → c.update fetchAll fetchSince = fetchAll) ∧
    (c.cache.isEmpty = false →
      (∀ e, fetchSince (Nat.max c.totalVersions 1 - 1) = .error e →
        c.update fetchAll fetchSince = .error e) ∧
      (∀ resp, fetchSince (Nat.max c.totalVersions 1 - 1) = .ok resp →
        (resp = [] → c.update fetchAll fetchSince = fetchAll) ∧
        (∀ last, resp.getLast? = some last →
          (c.containsVersion last = true →
            c.update fetchAll fetchSince =
              .ok (resp.dropLast.foldl Cache.insertVersion c)) ∧
          (c.containsVersion last = false →
            c.update fetchAll fetchSince = fetchAll)))) := by
  refine ⟨fun _ => nat_max_one_sub_one c.totalVersions, fun hemp => ?_, fun hemp => ?_⟩
  · unfold Cache.update
    rw [if_pos hemp]
  · constructor
    · intro e hs
      unfold Cache.update
      rw [if_neg (by simp [hemp])]
      simp only []
      rw [hs]
    · intro resp hs
      constructor
      · intro hnil
        subst hnil
        unfold Cache.update
        rw [if_neg (by simp [hemp])]
        simp only []
        rw [hs]
        rfl
      · intro last hlast
        constructor
        · intro hmem
          unfold Cache.update
          rw [if_neg (by simp [hemp])]
          simp only []
          rw [hs]
          simp only []
          rw [hlast]
          simp only []
          rw [if_pos hmem]
        · intro hmem
          unfold Cache.update
          rw [if_neg (by simp [hemp])]
          simp only []
          rw [hs]
          simp only []
          rw [hlast]
          simp only []
          rw [if_neg (by simp [hmem])]

/-- Witness for the amended C3: a contiguous incremental response inserts
the newer entries into the cache. -/
theorem spec_c3_cache_update_witness :
    demoCache1.update demoFetchAll demoFetchSince1 =
      .ok ⟨[(Pkg.new "lib" "core", [⟨1, 0, 0⟩]),
        (Pkg.new "lib" "json", [⟨2, 0, 0⟩])]⟩ := by
  have h := (((spec_c3_cache_update demoCache1 demoFetchAll
      demoFetchSince1).2.2 rfl).2
      [⟨Pkg.new "lib" "json", ⟨2, 0, 0⟩⟩, ⟨Pkg.new "lib" "core", ⟨1, 0, 0⟩⟩]
      rfl).2 ⟨Pkg.new "lib" "core", ⟨1, 0, 0⟩⟩ rfl
  exact (h.1 rfl).trans (by rfl)

theorem setUnion_nil_left (ys : List SemVer) : setUnion [] ys = ys := by
  simp [setUnion]

theorem setUnion_cons_nil (x : SemVer) (xs : List SemVer) :
    setUnion (x :: xs) [] = x :: xs := by
  simp [setUnion]

theorem setUnion_cons_cons (x y : SemVer) (xs ys : List SemVer) :
    setUnion (x :: xs) (y :: ys) =
      if x < y then x :: setUnion xs (y :: ys)
      else if y < x then y :: setUnion (x :: xs) ys
      else x :: setUnion xs ys := by
  simp [setUnion]

theorem setUnion_mem (v : SemVer) (xs ys : List SemVer) :
    v ∈ setUnion xs ys ↔ v ∈ xs ∨ v ∈ ys := by
  induction xs, ys using setUnion.induct with
  | case1 ys => simp [setUnion_nil_left]
  | case2 x xs => simp [setUnion_cons_nil]
  | case3 x xs y ys hxy ih =>
    rw [setUnion_cons_cons, if_pos hxy]
    simp only [List.mem_cons, ih]
    tauto
  | case4 x xs y ys hxy hyx ih =>
    rw [setUnion_cons_cons, if_neg hxy, if_pos hyx]
    simp only [List.mem_cons, ih]
    tauto
  | case5 x xs y ys hxy hyx ih =>
    have hxyeq : x = y := SemVer.eq_of_not_lt_not_lt hxy hyx
    subst hxyeq
    rw [setUnion_cons_cons, if_neg hxy, if_neg hyx]
    simp only [List.mem_cons, ih]
    tauto

theorem setUnion_sorted (xs ys : List SemVer)
    (hxs : List.Sorted (· < ·) xs) (hys : List.Sorted (· < ·) ys) :
    List.Sorted (· < ·) (setUnion xs ys) := by
  induction xs, ys using setUnion.induct with
  | case1 ys => rw [setUnion_nil_left]; exact hys
  | case2 x xs => rw [setUnion_cons_nil]; exact hxs
  | case3 x xs y ys hxy ih =>
    rw [setUnion_cons_cons, if_pos hxy]
    rw [List.sorted_cons] at hxs ⊢
    obtain ⟨hxall, hxs'⟩ := hxs
    refine ⟨?_, ih hxs' hys⟩
    intro b hb
    rw [setUnion_mem] at hb
    rcases hb with hb | hb
    · exact hxall b hb
    · rcases List.mem_cons.mp hb with rfl | hb
      · exact hxy
      · rw [List.sorted_cons] at hys
        exact SemVer.lt_trans hxy (hys.1 b hb)
  | case4 x xs y ys hxy hyx ih =>
    rw [setUnion_cons_cons, if_neg hxy, if_pos hyx]
    rw [List.sorted_cons] at hys ⊢
    obtain ⟨hyall, hys'⟩ := hys
    refine ⟨?_, ih hxs hys'⟩
    intro b hb
    rw [setUnion_mem] at hb
    rcases hb with hb | hb
    · rcases List.mem_cons.mp hb with rfl | hb
      · exact hyx
      · rw [List.sorted_cons] at hxs
        exact SemVer.lt_trans hyx (hxs.1 b hb)
    · exact hyall b hb
  | case5 x xs y ys hxy hyx ih =>
    have hxyeq : x = y := SemVer.eq_of_not_lt_not_lt hxy hyx
    subst hxyeq
    rw [setUnion_cons_cons, if_neg hxy, if_neg hyx]
    rw [List.sorted_cons] at hxs hys ⊢
    obtain ⟨hxall, hxs'⟩ := hxs
    obtain ⟨hyall, hys'⟩ := hys
    refine ⟨?_, ih hxs' hys'⟩
    intro b hb
    rw [setUnion_mem] at hb
    rcases hb with hb | hb
    · exact hxall b hb
    · exact hyall b hb

theorem sorted_lt_nodup (l : List SemVer)
    (h : List.Sorted (· < ·) l) : l.Nodup := by
  induction l with
  | nil => exact List.nodup_nil
  | cons x xs ih =>
    rw [List.sorted_cons] at h
    rw [List.nodup_cons]
    exact ⟨fun hmem => SemVer.lt_irrefl x (h.1 x hmem), ih h.2⟩

/-- C5: the online solver's candidate listing is exactly the set union of
the local (offline) versions-cache entry and the remote versions-cache
entry for the package (absent entries are empty), without duplicates,
ascending under `Oldest` and descending under `Newest`. -/
theorem spec_c5_online_candidate_listing (local_cache online_cache : Cache)
    (strategy : VersionStrategy) (pkg : Pkg)
    (hl : List.Sorted (· < ·) ((alistLookup local_cache.cache pkg).getD []))
    (ho : List.Sorted (· < ·)
      ((alistLookup online_cache.cache pkg).getD [])) :
    (∀ v, v ∈ Online.list_available_versions local_cache online_cache
        strategy pkg ↔
      (v ∈ (alistLookup local_cache.cache pkg).getD [] ∨
        v ∈ (alistLookup online_cache.cache pkg).getD [])) ∧
    (Online.list_available_versions local_cache online_cache strategy
      pkg).Nodup ∧
    (strategy = .Oldest →
      List.Sorted (· < ·)
        (Online.list_available_versions local_cache online_cache strategy
          pkg)) ∧
    (strategy = .Newest →
      List.Sorted (fun a b => b < a)
        (Online.list_available_versions local_cache online_cache strategy
          pkg)) := by
  have hsor := setUnion_sorted _ _ hl ho
  have hnd := sorted_lt_nodup _ hsor
  cases strategy with
  | Newest =>
    unfold Online.list_available_versions
    simp only []
    refine ⟨?_, ?_, ?_, ?_⟩
    · intro v
      rw [List.mem_reverse, setUnion_mem]
    · rw [List.nodup_reverse]
      exact hnd
    · intro h
      exact absurd h (by decide)
    · intro _
      exact List.pairwise_reverse.mpr hsor
  | Oldest =>
    unfold Online.list_available_versions
    simp only []
    refine ⟨?_, hnd, fun _ => hsor, ?_⟩
    · intro v
      rw [setUnion_mem]
    · intro h
      exact absurd h (by decide)

/-- Witness for C5: concrete caches under the `Newest` strategy. -/
theorem spec_c5_online_candidate_listing_witness :
    ((⟨2, 0, 0⟩ : SemVer) ∈ Online.list_available_versions demoLocalCache
        demoOnlineCache .Newest (Pkg.new "lib" "core") ↔
      ((⟨2, 0, 0⟩ : SemVer) ∈
          (alistLookup demoLocalCache.cache (Pkg.new "lib" "core")).getD []
        ∨ (⟨2, 0, 0⟩ : SemVer) ∈
          (alistLookup demoOnlineCache.cache
            (Pkg.new "lib" "core")).getD [])) ∧
    (Online.list_available_versions demoLocalCache demoOnlineCache .Newest
      (Pkg.new "lib" "core")).Nodup ∧
    List.Sorted (fun a b => b < a)
      (Online.list_available_versions demoLocalCache demoOnlineCache
        .Newest (Pkg.new "lib" "core")) := by
  have h := spec_c5_online_candidate_listing demoLocalCache demoOnlineCache
    .Newest (Pkg.new "lib" "core")
    (by simp [demoLocalCache, alistLookup]) (by simp [demoOnlineCache, alistLookup])
  exact ⟨h.1 ⟨2, 0, 0⟩, h.2.1, h.2.2.2 rfl⟩
